import Mathlib

/-!
Shallow embedding of `src/app.py` (jkaberg/reodash): a Flask service that
turns archived recordings into on-demand HLS assets and serves both the
originals and the derived assets.

Conventions of the embedding:
* Python floats are modelled as exact rationals (`ℚ`); all inputs used in
  counterexamples were chosen so that double rounding does not change the
  branch taken by the Python code.
* Python strings are modelled as Lean `String`s; `os.path.join`,
  `os.path.abspath`, `str.startswith`, `str.lower` and `str.split` are
  modelled by executable functions below (structural recursion over the
  character list, so that the kernel can evaluate them).
* `os.path.exists` is modelled by a boolean oracle; for the segment
  polling loop the oracle is indexed by the poll tick (one tick is one
  50 ms sleep of the Python loop).
* The process-wide mutable state (gate counter, job registry, spawned
  processes, working directories) is an explicit record `AppState`, and
  each Flask handler is a function from state to state.
-/

/-- `MAX_CONCURRENT_TRANSCODES = 3` (app.py line 25). -/
def MAX_CONCURRENT_TRANSCODES : Int := 3

/-- `RECORDINGS_PATH` with its default value `/recordings` (app.py line 24). -/
def RECORDINGS_PATH : String := "/recordings"

/-- `HLS_PATH` with its default value `/tmp/reodash_hls` (app.py line 26). -/
def HLS_PATH : String := "/tmp/reodash_hls"

/-- Model of `str.startswith(pre)`: `s` begins with `pre`. -/
def starts_with (s pre : String) : Bool := pre.toList.isPrefixOf s.toList

/-- Model of `os.path.join a b` for the shapes occurring in app.py: if `b`
is absolute it replaces `a`, otherwise a single separator is inserted (the
configured roots never end in a slash). -/
def pjoin (a b : String) : String :=
  if starts_with b "/" then b else a ++ "/" ++ b

/-- Splitting a character list at a separator character (used to model
`str.split` and path-component splitting). -/
def splitChAux (sep : Char) : List Char → List Char → List (List Char)
  | [], cur => [cur.reverse]
  | c :: cs, cur =>
    if c = sep then cur.reverse :: splitChAux sep cs []
    else splitChAux sep cs (c :: cur)

/-- Split a character list on a separator character. -/
def splitCh (sep : Char) (cs : List Char) : List (List Char) :=
  splitChAux sep cs []

/-- One step of lexical POSIX path normalisation over components:
empty and `.` components are dropped, `..` removes the previous component
(at the root it is dropped, as `normpath` does for absolute paths). -/
def normStep (acc : List String) (c : String) : List String :=
  if c = "" ∨ c = "." then acc
  else if c = ".." then acc.dropLast
  else acc ++ [c]

/-- Normalised components of an absolute path. -/
def comps_of (p : String) : List String :=
  ((splitCh '/' p.toList).map (fun c => String.mk c)).foldl normStep []

/-- Model of `os.path.abspath` on an already-absolute path (every call in
app.py joins onto an absolute configured root first): lexical
normalisation, exactly like CPython `posixpath.normpath` — no symlink
resolution. -/
def abspath (p : String) : String :=
  match comps_of p with
  | [] => "/"
  | l => l.foldl (fun acc c => acc ++ "/" ++ c) ""

/-- Model of `str.lower()` restricted to ASCII (all strings compared by
app.py — codec names, pixel formats, extensions — are ASCII). -/
def lowerChar (c : Char) : Char :=
  if 'A' ≤ c ∧ c ≤ 'Z' then Char.ofNat (c.toNat + 32) else c

/-- Lower-case a string, ASCII-wise. -/
def lower (s : String) : String := String.mk (s.toList.map lowerChar)

/-- Model of `file_path.lower().split('.')[-1]` (app.py lines 405, 439). -/
def ext_of (fp : String) : String :=
  String.mk ((splitCh '.' (lower fp).toList).getLastD [])

/-! ### Range header parsing (app.py lines 166-179) -/

/-- Longest digit prefix of a character list, with the rest. -/
def takeDigits : List Char → List Char × List Char
  | [] => ([], [])
  | c :: cs =>
    if c.isDigit then
      let r := takeDigits cs
      (c :: r.1, r.2)
    else ([], c :: cs)

/-- Numeric value of a digit list (decimal, leading zeros allowed, exactly
like Python `int`). -/
def digitsToNat (ds : List Char) : Nat :=
  ds.foldl (fun n c => 10 * n + (c.toNat - 48)) 0

/-- Attempt to match the regular expression `bytes=(\d+)-(\d*)` at the
head of `cs`, returning the two captured groups; the second group is
`none` when it is empty (Python: falsy). -/
def matchBytesAt (cs : List Char) : Option (Nat × Option Nat) :=
  if cs.take 6 = "bytes=".toList then
    let t1 := takeDigits (cs.drop 6)
    if t1.1 = [] then none
    else
      match t1.2 with
      | '-' :: r2 =>
        let t2 := takeDigits r2
        some (digitsToNat t1.1, if t2.1 = [] then none else some (digitsToNat t2.1))
      | _ => none
  else none

/-- Model of `re.search(r'bytes=(\d+)-(\d*)', h)`: leftmost match. -/
def reSearch : List Char → Option (Nat × Option Nat)
  | [] => none
  | c :: cs =>
    match matchBytesAt (c :: cs) with
    | some m => some m
    | none => reSearch cs

/-- Raw end position before clamping: group 2 when present, else
`file_size - 1` (app.py line 176). -/
def raw_end (b : Option Nat) (file_size : Int) : Int :=
  match b with
  | some e => (e : Int)
  | none => file_size - 1

/-- `get_range_requests` (app.py lines 166-179): parse the `Range` header
and return start and end positions, or `none` (Python `(None, None)`) when
the header is absent or does not match.  Only the end is clamped to
`file_size - 1`; the start is returned unmodified. -/
def get_range_requests (file_size : Int) (range_header : Option String) :
    Option (Int × Int) :=
  match range_header with
  | none => none
  | some h =>
    match reSearch h.toList with
    | none => none
    | some (a, b) => some ((a : Int), min (raw_end b file_size) (file_size - 1))

/-- Observable shape of the response built by the MP4 branch of
`serve_file` (app.py lines 450-476). -/
structure RangeResponse where
  status : Nat
  contentRange : Option String
  contentLength : Option Int
  bodyLen : Int
deriving DecidableEq

/-- Number of bytes actually yielded by `generate_original` (app.py lines
456-466): `remaining = byte_end - byte_start + 1`; while `remaining` is
truthy, read `min(8192, remaining)` bytes — a negative request is Python
`f.read(-1)`, reading to end of file — and stop on an empty read. -/
def body_len (file_size byte_start byte_end : Int) : Int :=
  let remaining := byte_end - byte_start + 1
  if remaining = 0 then 0
  else if remaining < 0 then max 0 (file_size - byte_start)
  else min remaining (max 0 (file_size - byte_start))

/-- The MP4 branch of `serve_file` (app.py lines 450-476): without a
parsed range, `send_file` streams the whole file with status 200 (no
explicit `Content-Range`/`Content-Length` headers are added by the code);
with a parsed range, a 206 response carries exactly the headers of lines
473-475 and the generator body. -/
def serve_mp4 (file_size : Int) (range_header : Option String) : RangeResponse :=
  match get_range_requests file_size range_header with
  | none =>
    { status := 200, contentRange := none, contentLength := none, bodyLen := file_size }
  | some (byte_start, byte_end) =>
    { status := 206
      contentRange := some ("bytes " ++ toString byte_start ++ "-" ++ toString byte_end
        ++ "/" ++ toString file_size)
      contentLength := some (byte_end - byte_start + 1)
      bodyLen := body_len file_size byte_start byte_end }

/-! ### Playlist synthesis (app.py lines 249, 263-284) -/

/-- `segment_time = 2.0` (app.py line 249). -/
def segment_time : ℚ := 2

/-- `num_full = int(total_duration // segment_time)` (app.py line 264);
`//` on Python floats is floor division. -/
def num_full (D : ℚ) : ℤ := ⌊D / segment_time⌋

/-- `remainder = total_duration - (num_full * segment_time)` (line 265). -/
def remainder (D : ℚ) : ℚ := D - (num_full D : ℚ) * segment_time

/-- `segment_count = num_full + (1 if remainder > 0.01 else 0)` (line 266). -/
def segment_count (D : ℚ) : ℤ :=
  num_full D + (if remainder D > 1/100 then 1 else 0)

/-- `target_duration` (app.py line 267). -/
def target_duration (D : ℚ) : ℤ :=
  ⌈max segment_time (if remainder D > 0 then remainder D else segment_time)⌉

/-- Duration written for segment `i` (app.py line 278):
`segment_time if i < num_full else (remainder if remainder > 0.01 else segment_time)`. -/
def seg_dur (D : ℚ) (i : ℕ) : ℚ :=
  if (i : ℤ) < num_full D then segment_time
  else if remainder D > 1/100 then remainder D else segment_time

/-- The `#EXTINF` durations of the published VOD playlist, in order
(app.py lines 277-280, one entry per `i in range(segment_count)`). -/
def segment_durations (D : ℚ) : List ℚ :=
  (List.range (segment_count D).toNat).map (seg_dur D)

/-! ### The streaming file server (app.py lines 395-485) -/

/-- Observable outcome of a `serve_file` request. -/
inductive ServeOutcome where
  | notFound : ServeOutcome
  | forbidden : ServeOutcome
  | hlsPlaylist (path : String) : ServeOutcome
  | hlsFile (path : String) (mime : String) : ServeOutcome
  | rangeVideo (r : RangeResponse) (path : String) : ServeOutcome
  | sendFile (path : String) (mime : Option String) : ServeOutcome
deriving DecidableEq

/-- The polling loop of app.py lines 416-419: up to 1200 existence checks,
one every 50 ms (≈60 s).  `pollEndAux f fuel t` returns the tick of the
first check that succeeds, or `t + fuel` when every in-loop check fails. -/
def pollEndAux (f : Nat → Bool) : Nat → Nat → Nat
  | 0, t => t
  | fuel + 1, t => if f t then t else pollEndAux f fuel (t + 1)

/-- Tick at which the 1200-iteration polling loop stops. -/
def pollEnd (f : Nat → Bool) : Nat := pollEndAux f 1200 0

/-- Content type by extension inside the HLS branch (app.py lines 422-427;
the trailing plain `send_file` on line 428 is unreachable because the
branch is guarded by the same three extensions). -/
def hls_mime (e : String) : String :=
  if e = "m4s" then "video/iso.segment"
  else if e = "mp4" then "video/mp4"
  else "video/mp2t"

/-- Extension test of app.py line 414: `ext in ('m4s', 'mp4', 'ts')`. -/
def is_seg_ext (e : String) : Bool :=
  e == "m4s" || e == "mp4" || e == "ts"

/-- `os.path.abspath(os.path.join(HLS_PATH, file_path))` (app.py line 403). -/
def hls_target (fp : String) : String := abspath (pjoin HLS_PATH fp)

/-- The guard of app.py line 404:
`safe_hls_path.startswith(safe_hls_root)`. -/
def under_hls (fp : String) : Bool :=
  starts_with (hls_target fp) (abspath HLS_PATH)

/-- Everything of `serve_file` after the HLS block (app.py lines 430-485):
existence check, then the directory-traversal check, then dispatch on the
extension.  `exR` models `os.path.exists` for recordings-side paths,
`exH0` for the HLS-side `m3u8` re-check of lines 442-444. -/
def serve_file_rest (exR : String → Bool) (exH0 : String → Bool)
    (size : String → Int) (range_header : Option String) (fp : String) :
    ServeOutcome :=
  if exR (pjoin RECORDINGS_PATH fp) = false then .notFound
  else if starts_with (abspath (pjoin RECORDINGS_PATH fp)) (abspath RECORDINGS_PATH) = false then
    .forbidden
  else if ext_of fp = "m3u8" then
    (if exH0 (pjoin HLS_PATH fp) = false then .notFound
     else .hlsPlaylist (pjoin HLS_PATH fp))
  else if ext_of fp = "mp4" then
    .rangeVideo (serve_mp4 (size (pjoin RECORDINGS_PATH fp)) range_header)
      (pjoin RECORDINGS_PATH fp)
  else if ext_of fp = "m4s" ∨ ext_of fp = "ts" then .sendFile (pjoin RECORDINGS_PATH fp) none
  else if ext_of fp = "jpg" ∨ ext_of fp = "jpeg" then
    .sendFile (pjoin RECORDINGS_PATH fp) (some "image/jpeg")
  else if ext_of fp = "png" then .sendFile (pjoin RECORDINGS_PATH fp) (some "image/png")
  else .sendFile (pjoin RECORDINGS_PATH fp) none

/-- `serve_file` (app.py lines 395-485).  The HLS block comes first: when
the joined-and-normalised path string-prefixes the HLS root, `m3u8` is
served only if it already exists, and `m4s`/`mp4`/`ts` are polled for up
to 1200 ticks; any other extension falls through to the recordings
handling.  `exH` is the time-indexed existence oracle for HLS-side paths
(app.py re-checks existence once more after the loop; under the loop's own
exit condition that final check happens at the tick the loop stopped). -/
def serve_file (exR : String → Bool) (exH : Nat → String → Bool)
    (size : String → Int) (range_header : Option String) (fp : String) :
    ServeOutcome :=
  if under_hls fp then
    if ext_of fp = "m3u8" then
      (if exH 0 (hls_target fp) = false then .notFound
       else .hlsPlaylist (hls_target fp))
    else if is_seg_ext (ext_of fp) then
      (if exH (pollEnd (fun t => exH t (hls_target fp))) (hls_target fp) then
        .hlsFile (hls_target fp) (hls_mime (ext_of fp))
       else .notFound)
    else serve_file_rest exR (exH 0) size range_header fp
  else serve_file_rest exR (exH 0) size range_header fp

/-- Outcome of the admission part of the `api_hls` handler. -/
inductive HlsStart where
  | notFound : HlsStart
  | forbidden : HlsStart
  | proceed (full_path : String) : HlsStart
deriving DecidableEq

/-- The path checks of `api_hls` (app.py lines 330-335): join, existence
check FIRST (404), then the traversal check (403), then proceed. -/
def api_hls_gate (ex : String → Bool) (fp : String) : HlsStart :=
  if ex (pjoin RECORDINGS_PATH fp) = false then .notFound
  else if starts_with (abspath (pjoin RECORDINGS_PATH fp)) (abspath RECORDINGS_PATH) = false then
    .forbidden
  else .proceed (pjoin RECORDINGS_PATH fp)

/-! ### Probe results and the copy decision (app.py lines 190-213) -/

/-- One stream object of ffprobe's JSON output, as consumed by app.py:
`stream=codec_name,pix_fmt`; each key may be missing. -/
structure ProbeStream where
  codec_name : Option String
  pix_fmt : Option String
deriving DecidableEq

/-- `v_codec = (v.get('codec_name') if v else '') or ''` (app.py line 208):
a failed probe (`none`) or a missing key both collapse to `""`. -/
def v_codec (v : Option ProbeStream) : String :=
  (v.bind ProbeStream.codec_name).getD ""

/-- `v_pix = (v.get('pix_fmt') if v else '') or ''` (app.py line 209). -/
def v_pix (v : Option ProbeStream) : String :=
  (v.bind ProbeStream.pix_fmt).getD ""

/-- `a_codec = (a.get('codec_name') if a else '') or ''` (app.py line 210). -/
def a_codec (a : Option ProbeStream) : String :=
  (a.bind ProbeStream.codec_name).getD ""

/-- `can_copy_video = v_codec.lower() == 'h264' and v_pix.lower() in
('yuv420p', 'yuvj420p')` (app.py line 212). -/
def can_copy_video (v : Option ProbeStream) : Bool :=
  lower (v_codec v) == "h264"
    && (lower (v_pix v) == "yuv420p" || lower (v_pix v) == "yuvj420p")

/-- `can_copy_audio = a_codec.lower() == 'aac'` (app.py line 213). -/
def can_copy_audio (a : Option ProbeStream) : Bool :=
  lower (a_codec a) == "aac"

/-! ### Process-wide state and the transcode orchestrator
(app.py lines 29-53, 181-327, 367-393) -/

/-- One registered HLS job (`hls_jobs[job_id] = {'proc': proc, 'dir': job_dir}`,
app.py lines 293-297); the process handle is modelled by an id. -/
structure JobRec where
  procId : Nat
  dir : String
deriving DecidableEq

/-- The process-wide mutable state of app.py: the gate counter
`active_transcodes`, the registry `hls_jobs`, the set of live encoder
processes, the existing job working directories, and a count of external
probe invocations (to state frame properties about the refusal path). -/
structure AppState where
  active_transcodes : Int
  hls_jobs : List (String × JobRec)
  live_procs : List Nat
  dirs : List String
  probe_calls : Nat
deriving DecidableEq

/-- `can_start_transcode` (app.py lines 37-41): checks
`active_transcodes < MAX_CONCURRENT_TRANSCODES` under the lock, without
modifying anything. -/
def can_start_transcode (s : AppState) : Bool :=
  s.active_transcodes < MAX_CONCURRENT_TRANSCODES

/-- `increment_transcodes` (app.py lines 43-47). -/
def increment_transcodes (s : AppState) : AppState :=
  { s with active_transcodes := s.active_transcodes + 1 }

/-- `decrement_transcodes` (app.py lines 49-53). -/
def decrement_transcodes (s : AppState) : AppState :=
  { s with active_transcodes := s.active_transcodes - 1 }

/-- `start_hls_vod` (app.py lines 181-327) as a state transformer.  The
nondeterministic external inputs are parameters: the fresh `job_id`
(uuid4), the OS-assigned `pid` of the spawned encoder, the two probe
results `v`/`a` (which only select encoder command-line arguments, via
`can_copy_video`/`can_copy_audio`, and never abort the job), and the
probed `dur`ation (which only decides whether the static VOD playlist is
pre-written).  On refusal by the gate check the function returns before
any effect: no directory, no probe, no increment, no spawn, no
registration (app.py lines 183-184). -/
def start_hls_vod (s : AppState) (job_id : String) (pid : Nat)
    (_v _a : Option ProbeStream) (_dur : Option ℚ) :
    AppState × Option (String × String) :=
  if can_start_transcode s then
    let job_dir := HLS_PATH ++ "/" ++ job_id
    let s1 : AppState :=
      { s with dirs := s.dirs ++ [job_dir], probe_calls := s.probe_calls + 3 }
    let s2 := increment_transcodes s1
    let s3 : AppState :=
      { s2 with
        live_procs := s2.live_procs ++ [pid]
        hls_jobs := s2.hls_jobs ++ [(job_id, ⟨pid, job_dir⟩)] }
    (s3, some (job_id, job_id ++ "/index.m3u8"))
  else (s, none)

/-- `stop_hls_job` (app.py lines 367-393): pop the job from the registry
under the lock; when absent, return immediately with no effect (204 with
`# Nothing to do`); when present, terminate the process if still alive,
delete the working directory, and return (204).  The boolean records
whether a job was found (the code's two return points). -/
def stop_hls_job (s : AppState) (job_id : String) : AppState × Bool :=
  match s.hls_jobs.lookup job_id with
  | none => (s, false)
  | some job =>
    ({ s with
        hls_jobs := s.hls_jobs.eraseP (fun kv => kv.1 == job_id)
        live_procs := s.live_procs.erase job.procId
        dirs := s.dirs.erase job.dir }, true)

/-! ### Interleaving model of the concurrency gate (for claim C1)

The admission check (`can_start_transcode`), the increment and the
decrement each take the lock separately (app.py lines 37-53); between a
thread's check (app.py line 183) and its increment (line 289) lie the
probe calls and playlist writing, during which other threads run.  The
model below replays exactly those three lock-protected operations per
thread. -/

/-- Per-thread phase in the start/cleanup protocol: before the check,
check passed (but not yet incremented), check refused, incremented
(encoder running), decremented by the supervisor. -/
inductive GPhase where
  | idle | passed | refused | running | finished
deriving DecidableEq

/-- Gate state: the counter plus each thread's phase. -/
structure GState where
  counter : Int
  thr : List GPhase
deriving DecidableEq

/-- One lock-protected event, performed by thread `i`. -/
inductive GAct where
  | check (i : Nat) | inc (i : Nat) | dec (i : Nat)

/-- Semantics of one event: `check` reads the counter and records the
admission decision (app.py lines 40-41 under the lock, not incrementing);
`inc` is `increment_transcodes`, allowed only after a passed check (app.py
line 289); `dec` is the supervisor's `decrement_transcodes`, exactly once
per running job (line 309).  Events invalid for the thread's phase are
rejected (`none`). -/
def gstep (s : GState) : GAct → Option GState
  | .check i =>
    match s.thr.get? i with
    | some .idle =>
      some ⟨s.counter,
        s.thr.set i (if s.counter < MAX_CONCURRENT_TRANSCODES then .passed else .refused)⟩
    | _ => none
  | .inc i =>
    match s.thr.get? i with
    | some .passed => some ⟨s.counter + 1, s.thr.set i .running⟩
    | _ => none
  | .dec i =>
    match s.thr.get? i with
    | some .running => some ⟨s.counter - 1, s.thr.set i .finished⟩
    | _ => none

/-- Run a sequence of interleaved gate events. -/
def grun : GState → List GAct → Option GState
  | s, [] => some s
  | s, a :: rest =>
    match gstep s a with
    | some s2 => grun s2 rest
    | none => none

/-! ### Helper lemmas (shared; none of these is a claim theorem) -/

/-- Either the polling loop stopped at a tick where the check succeeded,
or it exhausted its fuel. -/
theorem pollEndAux_spec (f : Nat → Bool) :
    ∀ (fuel t : Nat), f (pollEndAux f fuel t) = true ∨ pollEndAux f fuel t = t + fuel := by
  intro fuel
  induction fuel with
  | zero => intro t; right; simp [pollEndAux]
  | succ k ih =>
    intro t
    by_cases h : f t
    · left; simp [pollEndAux, h]
    · rcases ih (t + 1) with h1 | h1
      · left; simpa [pollEndAux, h] using h1
      · right; simp only [pollEndAux, h, if_false, Bool.false_eq_true]; omega

/-- The polling loop never runs past its fuel. -/
theorem pollEndAux_le (f : Nat → Bool) :
    ∀ (fuel t : Nat), pollEndAux f fuel t ≤ t + fuel := by
  intro fuel
  induction fuel with
  | zero => intro t; simp [pollEndAux]
  | succ k ih =>
    intro t
    by_cases h : f t
    · simp only [pollEndAux, h, if_true]
      omega
    · have := ih (t + 1)
      simp only [pollEndAux, h, if_false, Bool.false_eq_true]
      omega

/-- Specialisation to the 1200-tick loop of app.py line 416. -/
theorem pollEnd_spec (f : Nat → Bool) :
    f (pollEnd f) = true ∨ pollEnd f = 1200 := by
  simpa [pollEnd] using pollEndAux_spec f 1200 0

/-- The loop stops at tick 1200 at the latest. -/
theorem pollEnd_le (f : Nat → Bool) : pollEnd f ≤ 1200 := by
  simpa [pollEnd] using pollEndAux_le f 1200 0

/-- A key absent from an association list's key list looks up to `none`. -/
theorem lookup_eq_none_of_keys (l : List (String × JobRec)) (k : String)
    (h : ∀ kv ∈ l, kv.1 ≠ k) : l.lookup k = none := by
  induction l with
  | nil => rfl
  | cons a tl ih =>
    have ha : a.1 ≠ k := h a (by simp)
    have hk : (k == a.1) = false := by
      simp only [beq_eq_false_iff_ne, ne_eq]
      exact fun hkk => ha hkk.symm
    simp only [List.lookup, hk]
    exact ih (fun kv hkv => h kv (by simp [hkv]))

/-- After `dict.pop(k)` — modelled by erasing the first entry whose key is
`k` from an association list with pairwise-distinct keys — looking up `k`
finds nothing. -/
theorem lookup_eraseP_nodup (k : String) :
    ∀ (l : List (String × JobRec)), (l.map Prod.fst).Nodup →
      (l.eraseP (fun kv => kv.1 == k)).lookup k = none := by
  intro l
  induction l with
  | nil => intro _; rfl
  | cons a tl ih =>
    intro hnd
    have hnd' := (List.nodup_cons.mp hnd)
    by_cases hak : a.1 = k
    · have hpa : (a.1 == k) = true := by simp [hak]
      simp only [List.eraseP_cons, hpa, cond_true]
      refine lookup_eq_none_of_keys tl k (fun kv hkv hq => ?_)
      exact hnd'.1 (hak ▸ hq ▸ List.mem_map_of_mem Prod.fst hkv)
    · have hpa : (a.1 == k) = false := by simp [hak]
      simp only [List.eraseP_cons, hpa, cond_false]
      have hk : (k == a.1) = false := by
        simp only [beq_eq_false_iff_ne, ne_eq]
        exact fun hkk => hak hkk.symm
      simp only [List.lookup, hk]
      exact ih hnd'.2

/-- Sum of the mapped range, peeled at the top (used for the playlist sum). -/
theorem range_map_sum_succ (f : ℕ → ℚ) (m : ℕ) :
    ((List.range (m + 1)).map f).sum = ((List.range m).map f).sum + f m := by
  simp [List.range_succ]

/-- Sum of a constant-2 prefix of the playlist durations. -/
theorem range_map_sum_const (m : ℕ) (f : ℕ → ℚ) (h : ∀ i, i < m → f i = 2) :
    ((List.range m).map f).sum = 2 * m := by
  induction m with
  | zero => simp
  | succ k ih =>
    rw [range_map_sum_succ, ih (fun i hi => h i (Nat.lt_succ_of_lt hi)),
      h k (Nat.lt_succ_self k)]
    push_cast
    ring

/-! ### Claim theorems -/

/-- C1 (code_bug): the claimed invariant `0 ≤ active_transcodes ≤
MAX_CONCURRENT_TRANSCODES` for every interleaving is violated by the code.
The admission check and the increment take the lock separately, so two
threads that both pass `can_start_transcode()` while the counter is 2 can
both run `increment_transcodes()`, driving the counter to 4 > 3.  The
interleaving below is a valid run of the gate protocol (four threads, each
performing its check before incrementing, exactly as app.py lines 183 and
289 do) that reaches a state whose counter exceeds the maximum. -/
theorem c1_gate_bound_violated :
    grun ⟨0, [.idle, .idle, .idle, .idle]⟩
      [.check 0, .inc 0, .check 1, .inc 1, .check 2, .check 3, .inc 2, .inc 3]
      = some ⟨4, [.running, .running, .running, .running]⟩
    ∧ MAX_CONCURRENT_TRANSCODES < 4 := by decide

set_option maxRecDepth 8000 in
/-- C4 (code_bug): path-traversal requests are not rejected as Forbidden.
First, the existence check precedes the sandbox check in both `api_hls`
(app.py lines 332-335) and `serve_file` (lines 430-434), so an escaping
path that does not exist is answered NotFound, never Forbidden.  Second,
the `startswith` sandbox check lacks a trailing separator, so the escaping
request `../recordings-evil/secret.mp4` — which resolves to
`/recordings-evil/secret.mp4`, outside the root — passes the check and the
file outside the root is read and served with status 200. -/
theorem c4_traversal_not_forbidden :
    api_hls_gate (fun _ => false) "../../etc/passwd" = HlsStart.notFound
    ∧ abspath (pjoin RECORDINGS_PATH "../../etc/passwd") = "/etc/passwd"
    ∧ starts_with (abspath (pjoin RECORDINGS_PATH "../../etc/passwd"))
        (RECORDINGS_PATH ++ "/") = false
    ∧ serve_file (fun _ => true) (fun _ _ => false) (fun _ => 7) none
        "../recordings-evil/secret.mp4"
      = ServeOutcome.rangeVideo
          { status := 200, contentRange := none, contentLength := none, bodyLen := 7 }
          "/recordings/../recordings-evil/secret.mp4"
    ∧ abspath "/recordings/../recordings-evil/secret.mp4" = "/recordings-evil/secret.mp4"
    ∧ starts_with "/recordings-evil/secret.mp4" (RECORDINGS_PATH ++ "/") = false := by
  decide

set_option maxRecDepth 8000 in
/-- C5 (code_bug): a request for an origin MP4 recording never reaches the
range-serving branch.  For any plain recording path, the joined HLS path
string-prefixes the HLS root (app.py line 404), and the extension `mp4` is
caught by the segment branch (line 414), which polls the HLS directory for
1200 ticks and aborts 404 — even though the file exists under the
recordings root and the claim requires a 200 with the full body.  The
second conjunct shows what the shadowed MP4 branch (lines 450-476) would
have returned for the same request. -/
theorem c5_origin_mp4_shadowed :
    serve_file (fun _ => true) (fun _ _ => false) (fun _ => 1000) none
      "Driveway/2025/09/05/clip.mp4" = ServeOutcome.notFound
    ∧ serve_mp4 1000 none
      = { status := 200, contentRange := none, contentLength := none, bodyLen := 1000 } := by
  decide

/-- C8 (confirmed): when the gate refuses admission (the counter is at or
above the maximum at the check), `start_hls_vod` returns the refusal with
the state unchanged in every component: no job id is returned, no working
directory is created, no probe is invoked, no process is spawned, the
counter keeps its value, and the registry is untouched (app.py lines
183-184 return before any effect). -/
theorem c8_refusal_frame (s : AppState) (jid : String) (pid : Nat)
    (v a : Option ProbeStream) (dur : Option ℚ)
    (h : MAX_CONCURRENT_TRANSCODES ≤ s.active_transcodes) :
    start_hls_vod s jid pid v a dur = (s, none) := by
  have hc : can_start_transcode s = false := by
    simp only [can_start_transcode, decide_eq_false_iff_not, not_lt]
    exact h
  simp [start_hls_vod, hc]

/-- Witness for C8 at a concrete full state: three running transcodes,
counter at the maximum. -/
theorem c8_refusal_frame_witness :
    MAX_CONCURRENT_TRANSCODES ≤ (AppState.mk 3 [] [] [] 0).active_transcodes
    ∧ start_hls_vod (AppState.mk 3 [] [] [] 0) "job" 5 none none none
      = (AppState.mk 3 [] [] [] 0, none) :=
  ⟨by decide, c8_refusal_frame (AppState.mk 3 [] [] [] 0) "job" 5 none none none (by decide)⟩

/-- Case-insensitive comparison of an optional string against a non-empty
lower-case literal, through the `or ''` default of app.py lines 208-210. -/
theorem getD_lower_eq (o : Option String) (t : String) (ht : lower "" ≠ t) :
    lower (o.getD "") = t ↔ ∃ c, o = some c ∧ lower c = t := by
  cases o <;> simp [ht]

/-- Disjunctive variant of `getD_lower_eq` for the pixel-format test. -/
theorem getD_lower_eq2 (o : Option String) (t1 t2 : String)
    (h1 : lower "" ≠ t1) (h2 : lower "" ≠ t2) :
    (lower (o.getD "") = t1 ∨ lower (o.getD "") = t2)
      ↔ ∃ c, o = some c ∧ (lower c = t1 ∨ lower c = t2) := by
  cases o <;> simp [h1, h2]

/-- C9 (confirmed): the copy decision is exactly the claimed predicate:
`copy_video` holds iff the probed video codec is (case-insensitively)
`h264` and the pixel format is one of `yuv420p`/`yuvj420p`, and
`copy_audio` holds iff the audio codec is (case-insensitively) `aac`;
a failed probe (`none`, which is what `probe_stream` returns on timeout,
non-zero exit or malformed output, app.py lines 198-204) yields both
flags false; and job creation proceeds to a registered job for every
probe outcome whenever the gate admits — the probe never aborts it. -/
theorem c9_copy_decision (v a : Option ProbeStream) (s : AppState) (jid : String)
    (pid : Nat) (dur : Option ℚ) :
    (can_copy_video v = true ↔
      ((∃ c, v.bind ProbeStream.codec_name = some c ∧ lower c = "h264")
        ∧ (∃ p, v.bind ProbeStream.pix_fmt = some p
            ∧ (lower p = "yuv420p" ∨ lower p = "yuvj420p"))))
    ∧ (can_copy_audio a = true
        ↔ (∃ c, a.bind ProbeStream.codec_name = some c ∧ lower c = "aac"))
    ∧ can_copy_video none = false ∧ can_copy_audio none = false
    ∧ (can_start_transcode s = true →
        (start_hls_vod s jid pid v a dur).2 = some (jid, jid ++ "/index.m3u8")) := by
  refine ⟨?_, ?_, by decide, by decide, ?_⟩
  · simp only [can_copy_video, Bool.and_eq_true, Bool.or_eq_true, beq_iff_eq, v_codec, v_pix]
    exact and_congr (getD_lower_eq _ _ (by decide))
      (getD_lower_eq2 _ _ _ (by decide) (by decide))
  · simp only [can_copy_audio, beq_iff_eq, a_codec]
    exact getD_lower_eq _ _ (by decide)
  · intro h
    simp [start_hls_vod, h]

/-- Witness for C9: an upper-case probe result is accepted for copying,
and a fully failed probe still yields a started job on an idle gate. -/
theorem c9_copy_decision_witness :
    can_copy_video (some ⟨some "H264", some "YUV420P"⟩) = true
    ∧ can_start_transcode (AppState.mk 0 [] [] [] 0) = true
    ∧ (start_hls_vod (AppState.mk 0 [] [] [] 0) "job" 9 none none none).2
        = some ("job", "job/index.m3u8") := by
  refine ⟨?_, by decide, ?_⟩
  · exact (c9_copy_decision (some ⟨some "H264", some "YUV420P"⟩) none
      (AppState.mk 0 [] [] [] 0) "job" 9 none).1.mpr
      ⟨⟨"H264", rfl, by decide⟩, ⟨"YUV420P", rfl, Or.inl (by decide)⟩⟩
  · exact (c9_copy_decision none none (AppState.mk 0 [] [] [] 0) "job" 9 none).2.2.2.2
      (by decide)

/-- Cancelling an unknown job id is a no-op that reports no job found
(app.py lines 370-374). -/
theorem stop_hls_job_absent (s : AppState) (jid : String)
    (h : s.hls_jobs.lookup jid = none) : stop_hls_job s jid = (s, false) := by
  simp [stop_hls_job, h]

/-- C7 (confirmed): cancelling the same registered job twice in a row —
under the dictionary invariants that registry keys, live process ids and
directories are pairwise distinct — the first call reports success and
leaves a state in which the job is gone from the registry, its process is
no longer alive, and its working directory is gone (and the gate counter
is not touched by cancellation itself; the job's own supervisor performs
the single decrement when the terminated process exits); the second call
returns the state completely unchanged and reports that no job was
found. -/
theorem c7_cancel_idempotent (s : AppState) (jid : String) (job : JobRec)
    (hnk : (s.hls_jobs.map Prod.fst).Nodup)
    (hnp : s.live_procs.Nodup)
    (hnd : s.dirs.Nodup)
    (hfound : s.hls_jobs.lookup jid = some job) :
    (stop_hls_job s jid).2 = true
    ∧ (stop_hls_job s jid).1.hls_jobs.lookup jid = none
    ∧ job.procId ∉ (stop_hls_job s jid).1.live_procs
    ∧ job.dir ∉ (stop_hls_job s jid).1.dirs
    ∧ (stop_hls_job s jid).1.active_transcodes = s.active_transcodes
    ∧ stop_hls_job (stop_hls_job s jid).1 jid = ((stop_hls_job s jid).1, false) := by
  have hs : stop_hls_job s jid =
      ({ s with
          hls_jobs := s.hls_jobs.eraseP (fun kv => kv.1 == jid)
          live_procs := s.live_procs.erase job.procId
          dirs := s.dirs.erase job.dir }, true) := by
    simp [stop_hls_job, hfound]
  have hlook : (stop_hls_job s jid).1.hls_jobs.lookup jid = none := by
    rw [hs]
    exact lookup_eraseP_nodup jid s.hls_jobs hnk
  refine ⟨by rw [hs], hlook, ?_, ?_, by rw [hs], ?_⟩
  · rw [hs]
    exact hnp.not_mem_erase
  · rw [hs]
    exact hnd.not_mem_erase
  · exact stop_hls_job_absent _ jid hlook

/-- Witness for C7 at a concrete state holding one registered job. -/
theorem c7_cancel_idempotent_witness :
    (stop_hls_job (AppState.mk 1 [("job1", ⟨7, "/tmp/reodash_hls/job1"⟩)] [7]
        ["/tmp/reodash_hls/job1"] 0) "job1").2 = true
    ∧ stop_hls_job
        (stop_hls_job (AppState.mk 1 [("job1", ⟨7, "/tmp/reodash_hls/job1"⟩)] [7]
          ["/tmp/reodash_hls/job1"] 0) "job1").1 "job1"
      = ((stop_hls_job (AppState.mk 1 [("job1", ⟨7, "/tmp/reodash_hls/job1"⟩)] [7]
          ["/tmp/reodash_hls/job1"] 0) "job1").1, false) := by
  have h := c7_cancel_idempotent (AppState.mk 1 [("job1", ⟨7, "/tmp/reodash_hls/job1"⟩)] [7]
    ["/tmp/reodash_hls/job1"] 0) "job1" ⟨7, "/tmp/reodash_hls/job1"⟩
    (by decide) (by decide) (by decide) (by decide)
  exact ⟨h.1, h.2.2.2.2.2⟩

/-- C10 (confirmed): for every `Range` header matching `bytes=a-b` (or
`bytes=a-` with a missing end) whose start `a` is at or past end-of-file,
the parser returns the start unmodified — only the end is clamped to
`file_size - 1` — and the MP4 branch still produces a 206 response whose
`Content-Range` start exceeds its end and whose declared `Content-Length`
is zero or negative (with an empty body), instead of rejecting the range
as unsatisfiable. -/
theorem c10_unclamped_start (S : Int) (hdr : String) (a : Nat) (b : Option Nat)
    (hmatch : reSearch hdr.toList = some (a, b))
    (hpast : S ≤ (a : Int)) :
    get_range_requests S (some hdr) = some ((a : Int), min (raw_end b S) (S - 1))
    ∧ min (raw_end b S) (S - 1) < (a : Int)
    ∧ serve_mp4 S (some hdr)
      = { status := 206
          contentRange := some ("bytes " ++ toString ((a : Int)) ++ "-"
            ++ toString (min (raw_end b S) (S - 1)) ++ "/" ++ toString S)
          contentLength := some (min (raw_end b S) (S - 1) - (a : Int) + 1)
          bodyLen := 0 }
    ∧ min (raw_end b S) (S - 1) - (a : Int) + 1 ≤ 0 := by
  have hget : get_range_requests S (some hdr) = some ((a : Int), min (raw_end b S) (S - 1)) := by
    have hm2 : reSearch hdr.data = some (a, b) := hmatch
    simp [get_range_requests, hm2]
  have hmin : min (raw_end b S) (S - 1) ≤ S - 1 := min_le_right _ _
  have hlt : min (raw_end b S) (S - 1) < (a : Int) := by omega
  have hcl : min (raw_end b S) (S - 1) - (a : Int) + 1 ≤ 0 := by omega
  have hbody : body_len S ((a : Int)) (min (raw_end b S) (S - 1)) = 0 := by
    simp only [body_len]
    by_cases h0 : min (raw_end b S) (S - 1) - (a : Int) + 1 = 0
    · simp [h0]
    · have hneg : min (raw_end b S) (S - 1) - (a : Int) + 1 < 0 := by omega
      rw [if_neg h0, if_pos hneg]
      have hS : S - (a : Int) ≤ 0 := by omega
      exact max_eq_left hS
  refine ⟨hget, hlt, ?_, hcl⟩
  simp [serve_mp4, hget, hbody]

set_option maxRecDepth 8000 in
/-- Witness for C10: `bytes=20-` on a 10-byte file yields a 206 with
`Content-Range: bytes 20-9/10` and a declared length of -10; a request
path whose HLS join escapes the HLS root does reach the MP4 branch and
returns exactly that degenerate 206 through `serve_file`. -/
theorem c10_unclamped_start_witness :
    reSearch ("bytes=20-").toList = some (20, none)
    ∧ serve_mp4 10 (some "bytes=20-")
      = { status := 206, contentRange := some "bytes 20-9/10",
          contentLength := some (-10), bodyLen := 0 }
    ∧ serve_file (fun _ => true) (fun _ _ => false) (fun _ => 10) (some "bytes=20-")
        "../../recordings/cam/clip.mp4"
      = ServeOutcome.rangeVideo
          { status := 206, contentRange := some "bytes 20-9/10",
            contentLength := some (-10), bodyLen := 0 }
          "/recordings/../../recordings/cam/clip.mp4" := by
  have h := c10_unclamped_start 10 "bytes=20-" 20 none (by decide) (by decide)
  refine ⟨by decide, ?_, ?_⟩
  · exact h.2.2.1
  · decide

/-- C6 (confirmed): for every segment or init-fragment request (`m4s`,
`mp4` or `ts`) whose path falls under the HLS root, with a file that only
ever appears (never vanishes mid-request: the existence oracle is
monotone in time), the server returns the file if it exists at some tick
of the 1200-tick (≈60 s) poll window, and it returns NotFound exactly
when the file still does not exist when the bound elapses (the final
existence check of app.py line 420). -/
theorem c6_segment_poll (exR : String → Bool) (exH : Nat → String → Bool)
    (size : String → Int) (rh : Option String) (fp : String)
    (hroot : under_hls fp = true)
    (hext : ext_of fp = "m4s" ∨ ext_of fp = "mp4" ∨ ext_of fp = "ts")
    (hmono : ∀ s t : Nat, s ≤ t → exH s (hls_target fp) = true → exH t (hls_target fp) = true) :
    ((∃ t, t ≤ 1200 ∧ exH t (hls_target fp) = true) →
        serve_file exR exH size rh fp
          = ServeOutcome.hlsFile (hls_target fp) (hls_mime (ext_of fp)))
    ∧ (serve_file exR exH size rh fp = ServeOutcome.notFound
        ↔ exH 1200 (hls_target fp) = false) := by
  have hne : ext_of fp ≠ "m3u8" := by rcases hext with h | h | h <;> simp [h]
  have hseg : is_seg_ext (ext_of fp) = true := by
    rcases hext with h | h | h <;> simp [is_seg_ext, h]
  have hserve : serve_file exR exH size rh fp =
      (if exH (pollEnd (fun t => exH t (hls_target fp))) (hls_target fp) = true then
        ServeOutcome.hlsFile (hls_target fp) (hls_mime (ext_of fp))
      else ServeOutcome.notFound) := by
    simp [serve_file, hroot, hne, hseg]
  have hspec := pollEnd_spec (fun t => exH t (hls_target fp))
  have hple := pollEnd_le (fun t => exH t (hls_target fp))
  constructor
  · rintro ⟨t, ht, htrue⟩
    have hxp : exH (pollEnd (fun t => exH t (hls_target fp))) (hls_target fp) = true := by
      rcases hspec with hsp | hsp
      · exact hsp
      · rw [hsp]
        exact hmono t 1200 ht htrue
    rw [hserve, if_pos hxp]
  · constructor
    · intro hnf
      rw [hserve] at hnf
      by_cases hx : exH (pollEnd (fun t => exH t (hls_target fp))) (hls_target fp) = true
      · rw [if_pos hx] at hnf
        simp at hnf
      · rcases hspec with hsp | hsp
        · exact absurd hsp hx
        · rw [hsp] at hx
          simpa using hx
    · intro hfalse
      have hall : exH (pollEnd (fun t => exH t (hls_target fp))) (hls_target fp) = false := by
        cases hv : exH (pollEnd (fun t => exH t (hls_target fp))) (hls_target fp)
        · rfl
        · have := hmono _ 1200 hple hv
          rw [hfalse] at this
          cases this
      rw [hserve, if_neg (by simp [hall])]

/-- Witness for C6: a segment file that appears at poll tick 5 is served
as a fragmented segment. -/
theorem c6_segment_poll_witness :
    under_hls "job/seg_00000.m4s" = true
    ∧ serve_file (fun _ => false) (fun t _ => decide (5 ≤ t)) (fun _ => 0) none
        "job/seg_00000.m4s"
      = ServeOutcome.hlsFile (hls_target "job/seg_00000.m4s")
          (hls_mime (ext_of "job/seg_00000.m4s")) := by
  refine ⟨by decide, ?_⟩
  refine (c6_segment_poll (fun _ => false) (fun t _ => decide (5 ≤ t)) (fun _ => 0) none
      "job/seg_00000.m4s" (by decide) (Or.inl (by decide)) ?_).1 ⟨5, by omega, by decide⟩
  intro s t hst hs
  simp only [decide_eq_true_eq] at hs ⊢
  omega

/-- C2 counterexample: for `D = 4.01` the remainder is exactly `0.01`,
which is not `> 0.01`, so the code emits 2 segments while
`ceil(D/T) = 3` — and `D` is not an exact multiple of `T` (its remainder
is non-zero), so the claim as stated requires 3. -/
theorem c2_count_counterexample :
    segment_count (401/100 : ℚ) = 2
    ∧ ⌈(401/100 : ℚ) / segment_time⌉ = 3
    ∧ remainder (401/100 : ℚ) = 1/100 := by
  have hn : num_full (401/100 : ℚ) = 2 := by
    rw [num_full]
    norm_num [Int.floor_eq_iff, segment_time]
  have hr : remainder (401/100 : ℚ) = 1/100 := by
    rw [remainder, hn]
    norm_num [segment_time]
  refine ⟨?_, ?_, hr⟩
  · rw [segment_count, hn, hr]
    norm_num
  · norm_num [Int.ceil_eq_iff, segment_time]

/-- C2 (corrected): for every `D > 0`, the synthesizer emits
`segment_count = ceil(D/T)` segments when the remainder `D - floor(D/T)*T`
is zero (no trailing short segment; `segment_count * T = D`) or exceeds
`0.01`; but when `0 < remainder ≤ 0.01` the trailing short segment is
dropped and `segment_count = floor(D/T)`, one less than `ceil(D/T)`.
Every segment with index `i < floor(D/T)` has duration `T`, and the
trailing segment, emitted only when the remainder exceeds `0.01`, has
duration `D - floor(D/T)*T`. -/
theorem c2_amended_count (D : ℚ) (hD : 0 < D) :
    (remainder D = 0 →
      segment_count D = num_full D ∧ (num_full D : ℚ) * segment_time = D)
    ∧ (1/100 < remainder D → segment_count D = ⌈D / segment_time⌉)
    ∧ (0 < remainder D → remainder D ≤ 1/100 → segment_count D = num_full D)
    ∧ (∀ i : ℕ, (i : ℤ) < num_full D → seg_dur D i = segment_time)
    ∧ (1/100 < remainder D →
        seg_dur D (num_full D).toNat = D - (num_full D : ℚ) * segment_time) := by
  have hst : (segment_time : ℚ) = 2 := rfl
  have hfle : ((⌊D / 2⌋ : ℤ) : ℚ) ≤ D / 2 := Int.floor_le _
  have hflt : D / 2 < (⌊D / 2⌋ : ℚ) + 1 := Int.lt_floor_add_one _
  have e : num_full D = ⌊D / 2⌋ := by rw [num_full, hst]
  have h1 : (num_full D : ℚ) * 2 ≤ D := by
    rw [e]
    have := (le_div_iff (by norm_num : (0:ℚ) < 2)).mp hfle
    linarith
  have h2 : D < (num_full D : ℚ) * 2 + 2 := by
    rw [e]
    have := (div_lt_iff (by norm_num : (0:ℚ) < 2)).mp hflt
    nlinarith
  have hrem : remainder D = D - (num_full D : ℚ) * 2 := by rw [remainder, hst]
  have hn0 : 0 ≤ num_full D := by
    rw [e]
    exact Int.floor_nonneg.mpr (by positivity)
  refine ⟨?_, ?_, ?_, ?_, ?_⟩
  · intro h0
    have hnlt : ¬ (1/100 < remainder D) := by rw [h0]; norm_num
    constructor
    · simp only [segment_count]
      rw [if_neg hnlt, add_zero]
    · rw [hrem] at h0
      rw [hst]
      linarith
  · intro h
    have hcnt : segment_count D = num_full D + 1 := by
      simp only [segment_count]
      rw [if_pos h]
    rw [hcnt, hst]
    symm
    rw [Int.ceil_eq_iff]
    rw [hrem] at h
    constructor
    · have hlt : (num_full D : ℚ) < D / 2 := by
        rw [lt_div_iff (by norm_num : (0:ℚ) < 2)]
        linarith
      push_cast
      linarith
    · have hle : D / 2 ≤ (num_full D : ℚ) + 1 := by
        rw [div_le_iff (by norm_num : (0:ℚ) < 2)]
        linarith
      push_cast
      linarith
  · intro hpos hle
    have hnlt : ¬ (1/100 < remainder D) := not_lt.mpr hle
    simp only [segment_count]
    rw [if_neg hnlt, add_zero]
  · intro i hi
    simp [seg_dur, hi]
  · intro h
    have hcast : (((num_full D).toNat : ℕ) : ℤ) = num_full D := Int.toNat_of_nonneg hn0
    simp only [seg_dur]
    rw [if_neg (by rw [hcast]; exact lt_irrefl _), if_pos h, hst]
    exact hrem

/-- Witness for C2 at the spec's own example `D = 5.5`: remainder `1.5`
exceeds `0.01`, and the emitted count equals `ceil(D/T) = 3`. -/
theorem c2_amended_count_witness :
    1/100 < remainder (11/2 : ℚ)
    ∧ segment_count (11/2 : ℚ) = ⌈(11/2 : ℚ) / segment_time⌉ := by
  have hn : num_full (11/2 : ℚ) = 2 := by
    rw [num_full]
    norm_num [Int.floor_eq_iff, segment_time]
  have hgt : 1/100 < remainder (11/2 : ℚ) := by
    rw [remainder, hn]
    norm_num [segment_time]
  exact ⟨hgt, (c2_amended_count (11/2 : ℚ) (by norm_num)).2.1 hgt⟩

/-- C3 counterexample: for `D = 4.002` the published durations are
`[2, 2]`, whose exact sum is `4 ≠ D` — the shortfall `0.002` is the
deliberately dropped remainder, not a floating-point rounding artifact
(the embedding computes in exact rational arithmetic). -/
theorem c3_sum_counterexample :
    (segment_durations (2001/500 : ℚ)).sum = 4
    ∧ (segment_durations (2001/500 : ℚ)).sum ≠ (2001/500 : ℚ)
    ∧ (2001/500 : ℚ) - (segment_durations (2001/500 : ℚ)).sum = 1/500 := by
  have hn : num_full (2001/500 : ℚ) = 2 := by
    rw [num_full]
    norm_num [Int.floor_eq_iff, segment_time]
  have hr : remainder (2001/500 : ℚ) = 1/500 := by
    rw [remainder, hn]
    norm_num [segment_time]
  have hc : segment_count (2001/500 : ℚ) = 2 := by
    rw [segment_count, hn, hr]
    norm_num
  have hsum : (segment_durations (2001/500 : ℚ)).sum = 4 := by
    rw [segment_durations, hc]
    show ((List.range 2).map (seg_dur (2001/500 : ℚ))).sum = 4
    have h0 : seg_dur (2001/500 : ℚ) 0 = 2 := by
      simp [seg_dur, hn, segment_time]
    have h1 : seg_dur (2001/500 : ℚ) 1 = 2 := by
      simp [seg_dur, hn, segment_time]
    rw [show List.range 2 = [0, 1] from rfl]
    simp [h0, h1]
    norm_num
  refine ⟨hsum, ?_, ?_⟩
  · rw [hsum]; norm_num
  · rw [hsum]; norm_num

/-- C3 (corrected): for every `D > 0`, the sum of the durations written
into the published playlist equals `D` exactly whenever the remainder
`D - floor(D/T)*T` is zero or exceeds `0.01`; when `0 < remainder ≤ 0.01`
the sum is `D - remainder`.  In every case the sum never exceeds `D` and
falls short of it by at most `0.01` — a deliberate design threshold, not
a floating-point tolerance. -/
theorem c3_amended_sum (D : ℚ) (hD : 0 < D) :
    ((0 < remainder D → remainder D ≤ 1/100 →
        (segment_durations D).sum = D - remainder D)
    ∧ ((remainder D = 0 ∨ 1/100 < remainder D) → (segment_durations D).sum = D))
    ∧ ((segment_durations D).sum ≤ D ∧ D - (segment_durations D).sum ≤ 1/100) := by
  have hst : (segment_time : ℚ) = 2 := rfl
  have hfle : ((⌊D / 2⌋ : ℤ) : ℚ) ≤ D / 2 := Int.floor_le _
  have hflt : D / 2 < (⌊D / 2⌋ : ℚ) + 1 := Int.lt_floor_add_one _
  have e : num_full D = ⌊D / 2⌋ := by rw [num_full, hst]
  have h1 : (num_full D : ℚ) * 2 ≤ D := by
    rw [e]
    have := (le_div_iff (by norm_num : (0:ℚ) < 2)).mp hfle
    linarith
  have h2 : D < (num_full D : ℚ) * 2 + 2 := by
    rw [e]
    have := (div_lt_iff (by norm_num : (0:ℚ) < 2)).mp hflt
    nlinarith
  have hrem : remainder D = D - (num_full D : ℚ) * 2 := by rw [remainder, hst]
  have hr0 : 0 ≤ remainder D := by rw [hrem]; linarith
  have hn0 : 0 ≤ num_full D := by
    rw [e]
    exact Int.floor_nonneg.mpr (by positivity)
  have hcastZ : (((num_full D).toNat : ℕ) : ℤ) = num_full D := Int.toNat_of_nonneg hn0
  have hcastQ : (((num_full D).toNat : ℕ) : ℚ) = ((num_full D : ℤ) : ℚ) := by
    exact_mod_cast congrArg (fun z : ℤ => (z : ℚ)) hcastZ
  have hpre : ∀ i : ℕ, i < (num_full D).toNat → seg_dur D i = 2 := by
    intro i hi
    have hiz : (i : ℤ) < num_full D := by omega
    simp [seg_dur, hiz, hst]
  have keyA : ¬ (1/100 < remainder D) →
      (segment_durations D).sum = (num_full D : ℚ) * 2 := by
    intro hnlt
    have hcnt : segment_count D = num_full D := by
      simp only [segment_count]
      rw [if_neg hnlt, add_zero]
    rw [segment_durations, hcnt, range_map_sum_const _ _ hpre, hcastQ]
    ring
  have keyB : 1/100 < remainder D → (segment_durations D).sum = D := by
    intro h
    have hcnt : segment_count D = num_full D + 1 := by
      simp only [segment_count]
      rw [if_pos h]
    have hcntN : (segment_count D).toNat = (num_full D).toNat + 1 := by
      rw [hcnt]; omega
    have hlast : seg_dur D (num_full D).toNat = remainder D := by
      simp only [seg_dur]
      rw [if_neg (by rw [hcastZ]; exact lt_irrefl _), if_pos h]
    rw [segment_durations, hcntN, range_map_sum_succ, range_map_sum_const _ _ hpre,
      hlast, hcastQ, hrem]
    ring
  constructor
  · constructor
    · intro hpos hle
      rw [keyA (not_lt.mpr hle), hrem]
      ring
    · rintro (h0 | hgt)
      · have hnlt : ¬ (1/100 < remainder D) := by rw [h0]; norm_num
        rw [keyA hnlt]
        rw [hrem] at h0
        linarith
      · exact keyB hgt
  · by_cases h : 1/100 < remainder D
    · rw [keyB h]
      constructor
      · exact le_refl D
      · norm_num
    · rw [keyA h]
      constructor
      · linarith
      · rw [hrem] at *
        push_neg at h
        linarith

/-- Witness for C3 at the spec's own example `D = 5.5`: the published
durations sum exactly to `5.5`. -/
theorem c3_amended_sum_witness :
    0 < (11/2 : ℚ)
    ∧ 1/100 < remainder (11/2 : ℚ)
    ∧ (segment_durations (11/2 : ℚ)).sum = 11/2 := by
  have hn : num_full (11/2 : ℚ) = 2 := by
    rw [num_full]
    norm_num [Int.floor_eq_iff, segment_time]
  have hgt : 1/100 < remainder (11/2 : ℚ) := by
    rw [remainder, hn]
    norm_num [segment_time]
  exact ⟨by norm_num, hgt, (c3_amended_sum (11/2 : ℚ) (by norm_num)).1.2 (Or.inr hgt)⟩
